import Mathlib

/-!
# Verification of the doc-organizer classification and placement core

Shallow embedding of the doc-organizer repository's classification pipeline:
`DocumentationOrganizer` (doc-organizer.js and src/organizer.ts) and
`AIClassifier` (ai-classifier module).  JavaScript strings are embedded as
`List Char`; JavaScript numbers used for confidence scores are embedded as
`ℚ` (the pipeline only compares these values and adds the literal 0.1 once,
so exact rational arithmetic agrees with the source's float arithmetic on
every value reachable here).  The case-insensitive regular expressions of
the default configuration are embedded alternative-by-alternative: every
default pattern is an anchored alternation of literal pieces optionally
separated by `.*`, which is captured by the `Alt` type below.
-/

namespace DocOrganizer

/-- JavaScript strings, embedded as lists of characters. -/
abbrev Str := List Char

/-- Convert a Lean string literal to an embedded string. -/
def str (s : String) : Str := s.toList

/-- Lower-case an embedded string (models the `i` flag of the source's
regular expressions; the inputs exercised here are ASCII). -/
def lowerStr (s : Str) : Str := s.map Char.toLower

/-- Does `pat` occur as a contiguous substring of `s`?  Models an
unanchored JavaScript `RegExp.test` with a metacharacter-free literal. -/
def containsSub (pat : Str) : Str → Bool
  | [] => pat.isPrefixOf ([] : Str)
  | c :: cs => pat.isPrefixOf (c :: cs) || containsSub pat cs

/-- Drop everything up to and including the first occurrence of `pat`;
`none` when `pat` does not occur.  Used to chain the `.*`-separated
literal pieces of a regular-expression alternative. -/
def dropAfterOcc (pat : Str) : Str → Option Str
  | [] => if pat.isPrefixOf ([] : Str) then some [] else none
  | c :: cs =>
    if pat.isPrefixOf (c :: cs) then some ((c :: cs).drop pat.length)
    else dropAfterOcc pat cs

/-- One alternative of a default pattern's alternation, e.g. `feature-`
(an anchored literal), `.*audit` (`fromAnywhere`, one piece) or
`mobile.*testing` (anchored first piece, later pieces anywhere after). -/
structure Alt where
  fromAnywhere : Bool
  parts : List Str

/-- Match the `.*`-separated pieces of an alternative in order. -/
def chainFrom : List Str → Str → Bool
  | [], _ => true
  | p :: ps, s =>
    match dropAfterOcc p s with
    | some rest => chainFrom ps rest
    | none => false

/-- Does the alternative accept (a prefix of) `s`, `s` already lowered?
An anchored alternative requires its first literal piece at the start;
a `.*`-led alternative finds its pieces anywhere, in order. -/
def altAccepts (a : Alt) (s : Str) : Bool :=
  if a.fromAnywhere then chainFrom a.parts s
  else
    match a.parts with
    | [] => true
    | p :: ps => p.isPrefixOf s && chainFrom ps (s.drop p.length)

/-- A matcher built from a case-insensitive anchored alternation `/^(…)/i`:
the test lowers the input and tries each alternative. -/
def regexAlts (alts : List Alt) : Str → Bool :=
  fun name => alts.any (fun a => altAccepts a (lowerStr name))

/-- Anchored literal alternative (`^lit`). -/
def litAlt (s : String) : Alt := ⟨false, [str s]⟩

/-- Alternative of literals each preceded by `.*` (`^.*l₁.*l₂…`). -/
def anyAlt (ls : List String) : Alt := ⟨true, ls.map str⟩

/-- Alternative with an anchored first literal and `.*`-separated rest
(`^l₁.*l₂…`). -/
def seqAlt (ls : List String) : Alt := ⟨false, ls.map str⟩

/-- A user-supplied pattern: either a ready regular expression (embedded
as its test function) or a plain string compiled at merge time. -/
inductive UserPat where
  | regex (m : Str → Bool)
  | strLit (s : String)

/-- `new RegExp(lit, 'i')` for a metacharacter-free literal `lit`, applied
through `.test`: an unanchored, case-insensitive substring search.  This is
what `mergeWithDefaults` produces for a plain-string pattern. -/
def compileStringPat (lit : String) : Str → Bool :=
  fun name => containsSub (lowerStr (str lit)) (lowerStr name)

/-- Modelled from the spec: "the matcher is applied as a prefix/whole-string
test anchored at the start of the name, not as a substring search" — the
anchored reading of a plain-string pattern, for comparison with
`compileStringPat` (the code's actual unanchored compilation). -/
def specAnchoredStringPat (lit : String) : Str → Bool :=
  fun name => (lowerStr (str lit)).isPrefixOf (lowerStr name)

/-! ## Configuration (getDefaultConfig / mergeWithDefaults) -/

/-- Confidence thresholds (source: `thresholds` of the default config). -/
structure Thresholds where
  autoApply : ℚ
  suggest : ℚ
  filename : ℚ
  content : ℚ
  aiConfidence : ℚ
deriving DecidableEq

/-- Directory-structure variables (source field `structure`, renamed here
because `structure` is a Lean keyword). -/
structure DirVars where
  aiDocs : Str
  specs : Str
  root : Str
deriving DecidableEq

/-- AI settings (source: `ai` of the default config). -/
structure AISettings where
  enabled : Bool
  model : String
  fallbackThreshold : ℚ
  maxTokens : Nat
deriving DecidableEq

/-- The resolved configuration held by a `DocumentationOrganizer`. -/
structure Config where
  projectType : String
  dirVars : DirVars
  patterns : List (String × (Str → Bool))
  destinations : List (String × Str)
  protectedFiles : List Str
  thresholds : Thresholds
  ai : AISettings
  excludePatterns : List Str

def aiInstructionsM : Str → Bool := regexAlts
  [litAlt "claude", litAlt "cursor", litAlt "ai-", litAlt "assistant-",
   litAlt "development-guidelines", litAlt "coding-standards"]

def architectureM : Str → Bool := regexAlts
  [litAlt "architecture", litAlt "system-design", litAlt "api-spec",
   litAlt "tech-stack", litAlt "design-doc"]

def featuresM : Str → Bool := regexAlts
  [litAlt "feature-", litAlt "prd-", litAlt "spec-",
   litAlt "functionality-", litAlt "user-story"]

def maintenanceM : Str → Bool := regexAlts
  [litAlt "refactor", litAlt "troubleshoot", litAlt "deploy",
   litAlt "maintenance", litAlt "operation", anyAlt ["audit"],
   anyAlt ["testing", "guide"], seqAlt ["mobile", "testing"],
   seqAlt ["cleanup", "summary"], anyAlt ["organization", "rules"],
   seqAlt ["markdown", "organization"], litAlt "devops", litAlt "ops-"]

def setupM : Str → Bool := regexAlts
  [litAlt "setup", litAlt "getting-started", litAlt "project-overview",
   litAlt "configuration", litAlt "install", litAlt "onboard",
   litAlt "quickstart"]

def guidesM : Str → Bool := regexAlts
  [anyAlt ["guide"], litAlt "tutorial", seqAlt ["demo", "guide"],
   litAlt "how-to", litAlt "walkthrough"]

def auditsM : Str → Bool := regexAlts
  [anyAlt ["audit"], anyAlt ["report"], litAlt "analysis", litAlt "review"]

def specsM : Str → Bool := regexAlts
  [litAlt "spec", litAlt "requirement", litAlt "collapsible",
   seqAlt ["sidebar", "spec"], litAlt "rfc"]

def apiM : Str → Bool := regexAlts
  [litAlt "api-", litAlt "endpoint", litAlt "swagger", litAlt "openapi"]

def testingM : Str → Bool := regexAlts
  [litAlt "test-", litAlt "testing", litAlt "qa", litAlt "quality"]

/-- The ordered default pattern rules (insertion order of the source's
`patterns` object literal). -/
def defaultPatterns : List (String × (Str → Bool)) :=
  [("aiInstructions", aiInstructionsM), ("architecture", architectureM),
   ("features", featuresM), ("maintenance", maintenanceM),
   ("setup", setupM), ("guides", guidesM), ("audits", auditsM),
   ("specs", specsM), ("api", apiM), ("testing", testingM)]

/-- The ordered default destination templates. -/
def defaultDestinations : List (String × Str) :=
  [("aiInstructions", str "{aiDocs}/setup/"),
   ("architecture", str "{aiDocs}/architecture/"),
   ("features", str "{aiDocs}/features/"),
   ("maintenance", str "{aiDocs}/maintenance/"),
   ("setup", str "{aiDocs}/setup/"),
   ("guides", str "{root}"),
   ("audits", str "{root}"),
   ("specs", str "{specs}/"),
   ("api", str "{aiDocs}/architecture/"),
   ("testing", str "{aiDocs}/maintenance/")]

/-- `getDefaultConfig` of the source. -/
def defaultConfig : Config where
  projectType := "web-app"
  dirVars := ⟨str "ai_docs", str "specs", str "./"⟩
  patterns := defaultPatterns
  destinations := defaultDestinations
  protectedFiles :=
    [str "README.md", str "CHANGELOG.md", str "LICENSE.md",
     str "CONTRIBUTING.md", str "CODE_OF_CONDUCT.md"]
  thresholds :=
    ⟨mkRat 4 5, mkRat 7 10, mkRat 9 10, mkRat 1 2, mkRat 7 10⟩
  ai := ⟨false, "claude-sonnet-4-20250514", mkRat 4 5, 500⟩
  excludePatterns :=
    [str "node_modules", str ".git", str ".next", str "dist",
     str "build", str "__pycache__", str ".venv"]

/-! ## Config merging (mergeWithDefaults) and project-type adjustment -/

/-- Partial threshold overrides of a user configuration. -/
structure UserThresholds where
  autoApply : Option ℚ := none
  suggest : Option ℚ := none
  filename : Option ℚ := none
  content : Option ℚ := none
  aiConfidence : Option ℚ := none

/-- Partial directory-structure overrides of a user configuration. -/
structure UserDirVars where
  aiDocs : Option Str := none
  specs : Option Str := none
  root : Option Str := none

/-- Partial AI-settings overrides of a user configuration. -/
structure UserAISettings where
  enabled : Option Bool := none
  model : Option String := none
  fallbackThreshold : Option ℚ := none
  maxTokens : Option Nat := none

/-- A user configuration (the source's `UserConfig` / constructor input). -/
structure UserConfig where
  projectType : Option String := none
  dirVars : UserDirVars := {}
  patterns : List (String × UserPat) := []
  destinations : List (String × Str) := []
  protectedFiles : List Str := []
  thresholds : UserThresholds := {}
  ai : UserAISettings := {}
  excludePatterns : Option (List Str) := none

/-- Assignment to a key of a JavaScript object: replace the value in place
when the key exists, append the key otherwise (object insertion order). -/
def setAssoc (l : List (String × α)) (k : String) (v : α) :
    List (String × α) :=
  if l.any (fun p => p.1 == k) then
    l.map (fun p => if p.1 == k then (k, v) else p)
  else l ++ [(k, v)]

/-- Compile one user pattern: a regular expression is kept, a plain string
is compiled with `new RegExp(pattern, 'i')` (no anchor is added). -/
def compileUserPat : UserPat → (Str → Bool)
  | .regex m => m
  | .strLit s => compileStringPat s

/-- `{...defaults.patterns}` followed by per-key assignment of each user
pattern (strings compiled). -/
def mergePatterns (base : List (String × (Str → Bool)))
    (user : List (String × UserPat)) : List (String × (Str → Bool)) :=
  user.foldl (fun acc kv => setAssoc acc kv.1 (compileUserPat kv.2)) base

/-- `mergeWithDefaults` of the source: spread defaults, override per
section, append user `protectedFiles` after the defaults. -/
def mergeWithDefaults (u : UserConfig) : Config :=
  let d := defaultConfig
  { projectType := u.projectType.getD d.projectType
    dirVars :=
      { aiDocs := u.dirVars.aiDocs.getD d.dirVars.aiDocs
        specs := u.dirVars.specs.getD d.dirVars.specs
        root := u.dirVars.root.getD d.dirVars.root }
    patterns := mergePatterns d.patterns u.patterns
    destinations :=
      u.destinations.foldl (fun acc kv => setAssoc acc kv.1 kv.2)
        d.destinations
    protectedFiles := d.protectedFiles ++ u.protectedFiles
    thresholds :=
      { autoApply := u.thresholds.autoApply.getD d.thresholds.autoApply
        suggest := u.thresholds.suggest.getD d.thresholds.suggest
        filename := u.thresholds.filename.getD d.thresholds.filename
        content := u.thresholds.content.getD d.thresholds.content
        aiConfidence :=
          u.thresholds.aiConfidence.getD d.thresholds.aiConfidence }
    ai :=
      { enabled := u.ai.enabled.getD d.ai.enabled
        model := u.ai.model.getD d.ai.model
        fallbackThreshold :=
          u.ai.fallbackThreshold.getD d.ai.fallbackThreshold
        maxTokens := u.ai.maxTokens.getD d.ai.maxTokens }
    excludePatterns := u.excludePatterns.getD d.excludePatterns }

/-- `adjustForProjectType` of the source: per project type, push extra
protected files and assign extra or replacement pattern rules (and, for
data-science only, a destination). -/
def adjustForProjectType (cfg : Config) : Config :=
  if cfg.projectType == "library" then
    { cfg with
      protectedFiles := cfg.protectedFiles ++ [str "API.md", str "USAGE.md"]
      patterns := setAssoc cfg.patterns "api"
        (regexAlts [litAlt "api", litAlt "usage", litAlt "reference"]) }
  else if cfg.projectType == "data-science" then
    { cfg with
      protectedFiles :=
        cfg.protectedFiles ++ [str "METHODOLOGY.md", str "DATA.md"]
      patterns := setAssoc cfg.patterns "analysis"
        (regexAlts [litAlt "analysis", litAlt "model", litAlt "dataset",
          litAlt "experiment"])
      destinations :=
        setAssoc cfg.destinations "analysis" (str "{aiDocs}/analysis/") }
  else if cfg.projectType == "mobile" then
    { cfg with
      protectedFiles :=
        cfg.protectedFiles ++ [str "DEPLOYMENT.md", str "STORE.md"]
      patterns := setAssoc cfg.patterns "deployment"
        (regexAlts [litAlt "deploy", litAlt "store", litAlt "release",
          litAlt "build"]) }
  else if cfg.projectType == "api" then
    { cfg with
      protectedFiles :=
        cfg.protectedFiles ++ [str "ENDPOINTS.md", str "SCHEMAS.md"]
      patterns := setAssoc cfg.patterns "endpoints"
        (regexAlts [litAlt "endpoint", litAlt "route", litAlt "schema",
          litAlt "model"]) }
  else cfg

/-! ## Destination resolution and path utilities -/

/-- JavaScript `String.replace` with a string pattern: replace only the
first occurrence (insertion of the replacement at the match position). -/
def replaceOnce (pat rep : Str) : Str → Str
  | [] => if pat.isPrefixOf ([] : Str) then rep else []
  | c :: cs =>
    if pat.isPrefixOf (c :: cs) then rep ++ ((c :: cs).drop pat.length)
    else c :: replaceOnce pat rep cs

/-- `resolveDestination`: substitute `{aiDocs}`, then `{specs}`, then
`{root}` (first occurrence each) with the configured directory variables. -/
def resolveDestination (cfg : Config) (dest : Str) : Str :=
  replaceOnce (str "{root}") cfg.dirVars.root
    (replaceOnce (str "{specs}") cfg.dirVars.specs
      (replaceOnce (str "{aiDocs}") cfg.dirVars.aiDocs dest))

/-- Characters after the last `/` of a path. -/
def lastComponent (p : Str) : Str :=
  p.foldl (fun acc c => if c == '/' then [] else acc ++ [c]) []

/-- Remove `suf` from the end of `s` when present. -/
def stripSuffix (suf s : Str) : Str :=
  if suf.isSuffixOf s then s.take (s.length - suf.length) else s

/-- Node `path.basename(p)` for the slash-terminated-free paths the
directory walker produces. -/
def basename (p : Str) : Str := lastComponent p

/-- Node `path.basename(p, '.md')`. -/
def basenameNoMd (p : Str) : Str := stripSuffix (str ".md") (lastComponent p)

/-- Node `path.dirname(p)` for the relative paths the walker produces:
the part before the last `/`, or `.` when there is no `/`. -/
def dirname (p : Str) : Str :=
  if p.length == (lastComponent p).length then str "."
  else p.take (p.length - (lastComponent p).length - 1)

/-! ## Classification (analyzeFileContent) -/

/-- The per-file analysis record built by `analyzeFileContent`. -/
structure FileAnalysis where
  fileName : Str
  currentPath : Str
  currentDir : Str
  contentLength : Nat
  suggestedCategory : Option String
  suggestedPath : Option Str
  confidence : ℚ
  reasons : List String
  aiEnhanced : Bool := false
deriving DecidableEq

/-- First-match-wins scan of the rules against a file name: stop at the
first rule whose matcher accepts, return its category. -/
def scanRules : List (String × (Str → Bool)) → Str → Option String
  | [], _ => none
  | (cat, m) :: rs, s => if m s then some cat else scanRules rs s

/-- First-match-wins scan against a content excerpt; a match for the
`aiInstructions` category is skipped and the scan continues. -/
def scanRulesContent : List (String × (Str → Bool)) → Str → Option String
  | [], _ => none
  | (cat, m) :: rs, s =>
    if m s && cat != "aiInstructions" then some cat
    else scanRulesContent rs s

/-- The protected-file check: literal full path or literal base name. -/
def isProtected (cfg : Config) (filePath : Str) : Bool :=
  cfg.protectedFiles.contains filePath ||
    cfg.protectedFiles.contains (basename filePath)

def mdExt : Str := str ".md"

def rootTmpl : Str := str "{root}"

/-- The initial analysis record before either scan. -/
def baseAnalysis (filePath content : Str) : FileAnalysis where
  fileName := basenameNoMd filePath
  currentPath := filePath
  currentDir := dirname filePath
  contentLength := content.length
  suggestedCategory := none
  suggestedPath := none
  confidence := 0
  reasons := []

/-- `analyzeFileContent` as written in src/src/organizer.ts: protected
check first, then the filename scan (confidence `thresholds.filename`),
then the content scan over the first 200 characters (confidence
`thresholds.content`); the destination template of a category with no
explicit mapping falls back to `'{root}'`. -/
def analyzeFileContent (cfg : Config) (filePath content : Str) :
    Option FileAnalysis :=
  if isProtected cfg filePath then none
  else
    let a := baseAnalysis filePath content
    match scanRules cfg.patterns a.fileName with
    | some cat =>
      let dest :=
        resolveDestination cfg ((cfg.destinations.lookup cat).getD rootTmpl)
      some { a with
        suggestedCategory := some cat
        confidence := cfg.thresholds.filename
        suggestedPath := some (dest ++ a.fileName ++ mdExt)
        reasons := ["filename match"] }
    | none =>
      match scanRulesContent cfg.patterns (content.take 200) with
      | some cat =>
        let dest :=
          resolveDestination cfg
            ((cfg.destinations.lookup cat).getD rootTmpl)
        some { a with
          suggestedCategory := some cat
          confidence := cfg.thresholds.content
          suggestedPath := some (dest ++ a.fileName ++ mdExt)
          reasons := ["content match"] }
      | none => some a

/-- `analyzeFileContent` as written in doc-organizer.js: identical except
that the destination lookup has no `'{root}'` fallback, so a selected
category with no destination template passes `undefined` to
`resolveDestination`, raising a TypeError that the surrounding catch turns
into a recorded error and a `null` result.  `Except.error` marks that
internal throw. -/
def analyzeJS (cfg : Config) (filePath content : Str) :
    Except String (Option FileAnalysis) :=
  if isProtected cfg filePath then .ok none
  else
    let a := baseAnalysis filePath content
    match scanRules cfg.patterns a.fileName with
    | some cat =>
      match cfg.destinations.lookup cat with
      | none =>
        .error ("TypeError: undefined destination for category " ++ cat)
      | some t =>
        .ok (some { a with
          suggestedCategory := some cat
          confidence := cfg.thresholds.filename
          suggestedPath := some (resolveDestination cfg t ++ a.fileName ++ mdExt)
          reasons := ["filename match"] })
    | none =>
      match scanRulesContent cfg.patterns (content.take 200) with
      | some cat =>
        match cfg.destinations.lookup cat with
        | none =>
          .error ("TypeError: undefined destination for category " ++ cat)
        | some t =>
          .ok (some { a with
            suggestedCategory := some cat
            confidence := cfg.thresholds.content
            suggestedPath :=
              some (resolveDestination cfg t ++ a.fileName ++ mdExt)
            reasons := ["content match"] })
      | none => .ok (some a)

/-! ## Placement check (isCorrectlyPlaced) -/

/-- `.replace(/^\.\//, '')`: strip one leading `./`. -/
def stripLeadingDotSlash : Str → Str
  | '.' :: '/' :: rest => rest
  | s => s

/-- `.endsWith('/')`. -/
def endsWithSlash (s : Str) : Bool := s.getLast? == some '/'

/-- The normalization both directories undergo before comparison: strip a
leading `./`, map the empty string to `.`, then append `/` to any
non-root directory not already ending in `/`. -/
def normalizeDir (s : Str) : Str :=
  let n := stripLeadingDotSlash s
  let n := if n == [] then str "." else n
  if n != str "." && !(endsWithSlash n) then n ++ str "/" else n

/-- The two-directory comparison inside `isCorrectlyPlaced`: normalize
both sides, treat `.` and `./` as the same root, else compare exactly. -/
def dirsMatch (cur expd : Str) : Bool :=
  let nc := normalizeDir cur
  let ne := normalizeDir expd
  if (nc == str "." && ne == str "./") || (nc == str "./" && ne == str ".")
  then true
  else nc == ne

/-- `isCorrectlyPlaced`: an analysis with no category is considered
correctly placed; otherwise compare the current directory with the
resolved expected directory of the category. -/
def isCorrectlyPlaced (cfg : Config) (a : FileAnalysis) : Bool :=
  match a.suggestedCategory with
  | none => true
  | some cat =>
    dirsMatch a.currentDir
      (resolveDestination cfg ((cfg.destinations.lookup cat).getD rootTmpl))

/-! ## Suggestion engine (generateSuggestions / applyMoves) -/

/-- One entry of the suggestion list. -/
structure OrganizationSuggestion where
  current : Str
  suggested : Str
  category : String
  confidence : ℚ
  reasons : List String
  aiEnhanced : Bool := false
deriving DecidableEq

/-- A candidate document: its path and its content (the enumerator and
content reader are external collaborators). -/
structure Document where
  path : Str
  content : Str

/-- The suggestion record pushed for a misplaced analysis. -/
def mkSuggestion (a : FileAnalysis) : OrganizationSuggestion where
  current := a.currentPath
  suggested := a.suggestedPath.getD []
  category := a.suggestedCategory.getD ""
  confidence := a.confidence
  reasons := a.reasons
  aiEnhanced := a.aiEnhanced

/-- The append condition of `generateSuggestions`: not correctly placed
and confidence at least the suggest threshold. -/
def shouldSuggest (cfg : Config) (a : FileAnalysis) : Bool :=
  !(isCorrectlyPlaced cfg a) &&
    decide (cfg.thresholds.suggest ≤ a.confidence)

/-- `generateSuggestions`: adjust the configuration for the project type,
analyze every document in order, and append a suggestion for each
misplaced, sufficiently confident analysis. -/
def generateSuggestions (cfg0 : Config) (docs : List Document) :
    List OrganizationSuggestion :=
  let cfg := adjustForProjectType cfg0
  docs.filterMap (fun doc =>
    match analyzeFileContent cfg doc.path doc.content with
    | none => none
    | some a => if shouldSuggest cfg a then some (mkSuggestion a) else none)

/-- The selection `applyMoves` executes: the current suggestion list
filtered to confidence at least the auto-apply threshold (the renames
themselves are external file-system calls). -/
def autoMoves (cfg : Config) (suggestions : List OrganizationSuggestion) :
    List OrganizationSuggestion :=
  suggestions.filter (fun s => decide (cfg.thresholds.autoApply ≤ s.confidence))

/-! ## AI classifier (ai-classifier: classify / mergeAnalysis) -/

/-- The structured result of the external classification call. -/
structure AIClassificationResult where
  category : String
  confidence : ℚ
  reason : String
  alternativeCategories : List (String × ℚ) := []
deriving DecidableEq

/-- The `existingAnalysis` argument shape of `mergeAnalysis`. -/
structure RegexAnalysis where
  category : Option String
  confidence : ℚ
  reasons : List String
deriving DecidableEq

/-- The merged classification returned by `mergeAnalysis`. -/
structure MergedAnalysis where
  category : String
  confidence : ℚ
  reasons : List String
deriving DecidableEq

/-- JavaScript `(q * 100).toFixed(0)` for the confidence percentages used
in reason strings: the nearest integer to `100 q` (ties rounded up),
computed on the numerator and denominator directly so that concrete
instances evaluate: `⌊100 q + 1/2⌋ = ⌊(200 num + den) / (2 den)⌋`. -/
def percentOf (q : ℚ) : ℤ := (200 * q.num + (q.den : ℤ)) / (2 * (q.den : ℤ))

/-- The disagreement note appended by `mergeAnalysis`. -/
def aiSuggestedNote (aiCat : String) (aiConf : ℚ) : String :=
  "AI suggested " ++ aiCat ++ " (" ++ toString (percentOf aiConf) ++ "%)"

/-- `AIClassifier.mergeAnalysis`: adopt the AI result when it is strictly
more confident; boost by 0.1 (capped at 1) when the AI agrees; otherwise
keep the existing result and append the disagreement note — with the AI
category substituted when the existing category is absent
(`existingAnalysis.category || aiResult.category`). -/
def mergeAnalysis (existing : RegexAnalysis)
    (aiResult : AIClassificationResult) : MergedAnalysis :=
  if existing.confidence < aiResult.confidence then
    { category := aiResult.category
      confidence := aiResult.confidence
      reasons := ("AI: " ++ aiResult.reason) :: existing.reasons }
  else if existing.category = some aiResult.category then
    { category := existing.category.getD aiResult.category
      confidence := min 1 (existing.confidence + mkRat 1 10)
      reasons := existing.reasons ++ ["AI confirmed: " ++ aiResult.reason] }
  else
    { category := existing.category.getD aiResult.category
      confidence := existing.confidence
      reasons := existing.reasons ++
        [aiSuggestedNote aiResult.category aiResult.confidence] }

/-- The post-merge update of the analysis in
`analyzeFileContentWithAI`: install the merged fields, set `aiEnhanced`,
and recompute the suggested path when the merged category has a
destination template. -/
def applyAIResult (cfg : Config) (a : FileAnalysis)
    (aiResult : AIClassificationResult) : FileAnalysis :=
  let merged :=
    mergeAnalysis ⟨a.suggestedCategory, a.confidence, a.reasons⟩ aiResult
  let a1 := { a with
    suggestedCategory := some merged.category
    confidence := merged.confidence
    reasons := merged.reasons
    aiEnhanced := true }
  match cfg.destinations.lookup merged.category with
  | some t =>
    let p := resolveDestination cfg t ++ a1.fileName ++ mdExt
    { a1 with suggestedPath := some p }
  | none => a1

/-- `analyzeFileContentWithAI`: run the pattern analysis, and when AI is
enabled, available, and the confidence is below the fallback threshold,
consult the external classifier.  `aiResult` is the external call's
outcome: `classify` returns `null` both when the call fails and when it
returns nothing, so both are `none` here. -/
def analyzeFileContentWithAI (cfg : Config) (aiAvailable : Bool)
    (aiResult : Option AIClassificationResult) (filePath content : Str) :
    Option FileAnalysis :=
  match analyzeFileContent cfg filePath content with
  | none => none
  | some a =>
    let shouldUseAI := cfg.ai.enabled && aiAvailable &&
      decide (a.confidence < cfg.ai.fallbackThreshold)
    if !shouldUseAI then some a
    else
      match aiResult with
      | none => some a
      | some r => some (applyAIResult cfg a r)

/-- `generateSuggestionsWithAI`: like `generateSuggestions` but routing
each document through the AI-enhanced analysis when AI is enabled.
`external` is the opaque per-document external classification outcome. -/
def generateSuggestionsWithAI (cfg0 : Config) (aiAvailable : Bool)
    (external : Str → Option AIClassificationResult)
    (docs : List Document) : List OrganizationSuggestion :=
  let cfg := adjustForProjectType cfg0
  docs.filterMap (fun doc =>
    match (if cfg.ai.enabled then
        analyzeFileContentWithAI cfg aiAvailable (external doc.path)
          doc.path doc.content
      else analyzeFileContent cfg doc.path doc.content) with
    | none => none
    | some a => if shouldSuggest cfg a then some (mkSuggestion a) else none)

/-! ## Theorems -/

/-- Claim C1 as stated is false at a concrete input: when the existing
classification has no category (confidence 0) and the AI returns a
different category with confidence 0 (not strictly exceeding 0), the
disagreement branch of `mergeAnalysis` adopts the AI category through
`existingAnalysis.category || aiResult.category` instead of keeping the
existing (absent) category. -/
theorem c1_counterexample :
    ¬ (0:ℚ) < (0:ℚ)
    ∧ (none : Option String) ≠ some "guides"
    ∧ (mergeAnalysis { category := none, confidence := 0, reasons := [] }
        { category := "guides", confidence := 0, reason := "generic" }).category
        = "guides"
    ∧ some (mergeAnalysis { category := none, confidence := 0, reasons := [] }
        { category := "guides", confidence := 0, reason := "generic" }).category
        ≠ (none : Option String) := by
  decide

/-- Claim C1, amended: for every merge where the AI confidence does not
strictly exceed the existing confidence and the AI category differs from
the existing category, the merge keeps the existing confidence unchanged,
appends the disagreement note after the existing reasons, and returns the
existing category when one is present (falling back to the AI category
when the existing category is absent). -/
theorem c1_theorem (existing : RegexAnalysis) (ai : AIClassificationResult)
    (h1 : ¬ existing.confidence < ai.confidence)
    (h2 : existing.category ≠ some ai.category) :
    mergeAnalysis existing ai =
      { category := existing.category.getD ai.category
        confidence := existing.confidence
        reasons := existing.reasons ++
          [aiSuggestedNote ai.category ai.confidence] } := by
  simp only [mergeAnalysis, if_neg h1, if_neg h2]

/-- Witness for C1: existing confidence 0.9 with category `setup`, AI
returning 0.5 for `guides` — the merge keeps `setup` at 0.9 and appends
the disagreement note. -/
theorem c1_witness :
    ¬ mkRat 9 10 < mkRat 1 2
    ∧ (some "setup" : Option String) ≠ some "guides"
    ∧ mergeAnalysis
        { category := some "setup", confidence := mkRat 9 10
          reasons := ["filename match"] }
        { category := "guides", confidence := mkRat 1 2, reason := "r" } =
      { category := "setup", confidence := mkRat 9 10
        reasons := ["filename match", aiSuggestedNote "guides" (mkRat 1 2)] } :=
  ⟨by decide, by decide, c1_theorem _ _ (by decide) (by decide)⟩

/-- The configuration of a mobile project: `adjustForProjectType` adds the
`deployment` pattern rule but no `deployment` destination template. -/
def mobileConfig : Config :=
  adjustForProjectType { defaultConfig with projectType := "mobile" }

/-- Claim C2: at the concrete input `store-listing.md` under a mobile
project, the filename scan selects the adjustment-introduced category
`deployment`, which has no destination template; the doc-organizer.js
analyzer passes `undefined` to `resolveDestination` and throws (caught as
a recorded error, dropping the analysis), while the src/src/organizer.ts
analyzer falls back to the `'{root}'` template and computes
`./store-listing.md`. -/
theorem c2_theorem :
    scanRules mobileConfig.patterns (str "store-listing") = some "deployment"
    ∧ mobileConfig.destinations.lookup "deployment" = none
    ∧ analyzeJS mobileConfig (str "store-listing.md") [] =
        .error ("TypeError: undefined destination for category " ++ "deployment")
    ∧ analyzeFileContent mobileConfig (str "store-listing.md") [] =
        some { baseAnalysis (str "store-listing.md") [] with
          suggestedCategory := some "deployment"
          confidence := mkRat 9 10
          suggestedPath := some (str "./store-listing.md")
          reasons := ["filename match"] } :=
  ⟨by decide, by decide, rfl, by decide⟩

/-- `adjustForProjectType` only ever appends to the protected set. -/
theorem mem_protected_adjust {cfg : Config} {x : Str}
    (h : x ∈ cfg.protectedFiles) :
    x ∈ (adjustForProjectType cfg).protectedFiles := by
  unfold adjustForProjectType
  repeat' split
  all_goals simp [h]

/-- A protected path is rejected before either pattern scan. -/
theorem analyze_protected {cfg : Config} {p : Str}
    (h : isProtected cfg p = true) (c : Str) :
    analyzeFileContent cfg p c = none := by
  simp [analyzeFileContent, h]

/-- The analysis record keeps the analyzed path. -/
theorem analyze_currentPath {cfg : Config} {p c : Str} {a : FileAnalysis}
    (h : analyzeFileContent cfg p c = some a) : a.currentPath = p := by
  unfold analyzeFileContent at h
  simp only [] at h
  repeat' split at h
  all_goals first
    | exact Option.noConfusion h
    | (injection h with h'; subst h'; rfl)

/-- Membership in the generated suggestion list comes from an analyzed,
misplaced, sufficiently confident document. -/
theorem mem_generateSuggestions {cfg : Config} {docs : List Document}
    {s : OrganizationSuggestion} (h : s ∈ generateSuggestions cfg docs) :
    ∃ doc ∈ docs, ∃ a,
      analyzeFileContent (adjustForProjectType cfg) doc.path doc.content
          = some a
        ∧ shouldSuggest (adjustForProjectType cfg) a = true
        ∧ s = mkSuggestion a := by
  unfold generateSuggestions at h
  rw [List.mem_filterMap] at h
  obtain ⟨doc, hdoc, hmap⟩ := h
  refine ⟨doc, hdoc, ?_⟩
  cases hA : analyzeFileContent (adjustForProjectType cfg) doc.path
      doc.content with
  | none => rw [hA] at hmap; exact absurd hmap (by simp)
  | some a =>
    rw [hA] at hmap
    have hmap' :
        (if shouldSuggest (adjustForProjectType cfg) a = true then
          some (mkSuggestion a) else none) = some s := hmap
    by_cases hs : shouldSuggest (adjustForProjectType cfg) a = true
    · rw [if_pos hs] at hmap'
      exact ⟨a, rfl, hs, (Option.some.inj hmap').symm⟩
    · rw [if_neg hs] at hmap'
      exact absurd hmap' (by simp)

/-- Claim C3: a document whose literal base name or literal full path is
in the configured protected set is rejected by `analyzeFileContent`
before any pattern logic runs — for every pattern list and every content —
and such a document never contributes an entry to the suggestion list. -/
theorem c3_theorem (cfg : Config) (filePath : Str)
    (h : filePath ∈ cfg.protectedFiles
      ∨ basename filePath ∈ cfg.protectedFiles) :
    (∀ pats content,
      analyzeFileContent { cfg with patterns := pats } filePath content = none)
    ∧ ∀ docs s, s ∈ generateSuggestions cfg docs → s.current ≠ filePath := by
  have hprot : ∀ cfg' : Config,
      (filePath ∈ cfg'.protectedFiles ∨ basename filePath ∈ cfg'.protectedFiles) →
      isProtected cfg' filePath = true := by
    intro cfg' h'
    rcases h' with h' | h'
    · simp [isProtected, h']
    · simp [isProtected, h']
  constructor
  · intro pats content
    exact analyze_protected (hprot { cfg with patterns := pats } h) content
  · intro docs s hs hcur
    obtain ⟨doc, hdoc, a, hA, hshould, hmk⟩ := mem_generateSuggestions hs
    have hpath : doc.path = filePath := by
      rw [← hcur, hmk]
      exact (analyze_currentPath hA).symm
    have hadj : isProtected (adjustForProjectType cfg) filePath = true := by
      refine hprot _ ?_
      rcases h with h | h
      · exact Or.inl (mem_protected_adjust h)
      · exact Or.inr (mem_protected_adjust h)
    rw [hpath] at hA
    rw [analyze_protected hadj doc.content] at hA
    exact Option.noConfusion hA

/-- Witness for C3: `README.md` is protected by default; its analysis is
`none` even with the full default pattern list and content matching the
`features` rule. -/
theorem c3_witness :
    (str "README.md" ∈ defaultConfig.protectedFiles
      ∨ basename (str "README.md") ∈ defaultConfig.protectedFiles)
    ∧ analyzeFileContent { defaultConfig with patterns := defaultPatterns }
        (str "README.md") (str "feature- demo guide") = none :=
  ⟨by decide,
    (c3_theorem defaultConfig (str "README.md") (by decide)).1
      defaultPatterns (str "feature- demo guide")⟩

/-- Claim C4: when a name is accepted by two configured filename rules —
one at position `|pre|` and one later — and every earlier rule rejects it,
the scan deterministically returns the category of the first accepting
rule, whatever rules (accepting or not) follow it; the scan never
continues past the first acceptance looking for a better match. -/
theorem c4_theorem (pre mid post : List (String × (Str → Bool)))
    (cat₁ cat₂ : String) (m₁ m₂ : Str → Bool) (name : Str)
    (hpre : ∀ r ∈ pre, r.2 name = false)
    (h1 : m₁ name = true) (h2 : m₂ name = true) :
    scanRules (pre ++ (cat₁, m₁) :: mid ++ (cat₂, m₂) :: post) name
      = some cat₁ := by
  induction pre with
  | nil => simp [scanRules, h1]
  | cons r rs ih =>
    obtain ⟨cat, m⟩ := r
    have hr : m name = false := hpre (cat, m) (List.mem_cons_self ..)
    simp only [List.cons_append, scanRules, hr]
    exact ih fun r hrm => hpre r (List.mem_cons_of_mem _ hrm)

/-- Witness for C4: `test-audit` is accepted both by the `maintenance`
rule (via `.*audit`) and by the later `testing` rule (via `test-`); the
default scan returns `maintenance`. -/
theorem c4_witness :
    ([("aiInstructions", aiInstructionsM), ("architecture", architectureM),
        ("features", featuresM)].all
      (fun r => !(r.2 (str "test-audit")))) = true
    ∧ maintenanceM (str "test-audit") = true
    ∧ testingM (str "test-audit") = true
    ∧ scanRules defaultConfig.patterns (str "test-audit")
        = some "maintenance" :=
  ⟨by decide, by decide, by decide,
    c4_theorem
      [("aiInstructions", aiInstructionsM), ("architecture", architectureM),
        ("features", featuresM)]
      [("setup", setupM), ("guides", guidesM), ("audits", auditsM),
        ("specs", specsM), ("api", apiM)]
      [] "maintenance" "testing" maintenanceM testingM (str "test-audit")
      (by decide) (by decide) (by decide)⟩

/-- `containsSub` decides the contiguous-substring relation. -/
theorem containsSub_iff (pat s : Str) :
    containsSub pat s = true ↔ pat <:+: s := by
  induction s with
  | nil =>
    simp [containsSub, List.isPrefixOf_iff_prefix, List.infix_nil,
      List.prefix_nil]
  | cons c cs ih =>
    simp [containsSub, List.isPrefixOf_iff_prefix, ih,
      List.infix_cons_iff]

/-- Claim C5 as stated is false at a concrete input: merging the
plain-string pattern `"zebra"` (key `zoo`) compiles it without an anchor,
so the filename scan accepts `xyzzebra` — a substring match that is not a
prefix match — and classifies it as `zoo`, while the spec's anchored
reading of the same pattern rejects that name. -/
theorem c5_counterexample :
    scanRules
        (mergeWithDefaults
          { patterns := [("zoo", UserPat.strLit "zebra")] }).patterns
        (str "xyzzebra") = some "zoo"
    ∧ compileStringPat "zebra" (str "xyzzebra") = true
    ∧ specAnchoredStringPat "zebra" (str "xyzzebra") = false := by
  decide

/-- Claim C5, amended: the filename scan applies each matcher as the
underlying unanchored regex test — a plain-string pattern therefore
accepts on a case-insensitive substring match anywhere in the name, while
the built-in matchers, whose regexes all begin with a start anchor, apply
their literal alternatives as prefix tests — and an accepted name yields
confidence equal to the configured filename constant (default 0.9) with
reasons `["filename match"]`. -/
theorem c5_theorem :
    (∀ lit name, compileStringPat lit name = true
      ↔ lowerStr (str lit) <:+: lowerStr name)
    ∧ (∀ p name, altAccepts ⟨false, [p]⟩ name = p.isPrefixOf name)
    ∧ (∀ cfg p c cat, isProtected cfg p = false →
        scanRules cfg.patterns (basenameNoMd p) = some cat →
        analyzeFileContent cfg p c =
          some { baseAnalysis p c with
            suggestedCategory := some cat
            confidence := cfg.thresholds.filename
            suggestedPath := some (resolveDestination cfg
                ((cfg.destinations.lookup cat).getD rootTmpl)
              ++ basenameNoMd p ++ mdExt)
            reasons := ["filename match"] })
    ∧ defaultConfig.thresholds.filename = mkRat 9 10 := by
  refine ⟨?_, ?_, ?_, rfl⟩
  · intro lit name
    exact containsSub_iff (lowerStr (str lit)) (lowerStr name)
  · intro p name
    simp [altAccepts, chainFrom]
  · intro cfg p c cat hprot hscan
    simp [analyzeFileContent, hprot, hscan, baseAnalysis]

/-- Witness for C5: `setup-notes.md` is accepted by the `setup` rule and
analyzed with confidence `thresholds.filename` and reason
`"filename match"`. -/
theorem c5_witness :
    isProtected defaultConfig (str "setup-notes.md") = false
    ∧ scanRules defaultConfig.patterns (basenameNoMd (str "setup-notes.md"))
        = some "setup"
    ∧ analyzeFileContent defaultConfig (str "setup-notes.md") [] =
        some { baseAnalysis (str "setup-notes.md") [] with
          suggestedCategory := some "setup"
          confidence := defaultConfig.thresholds.filename
          suggestedPath := some (resolveDestination defaultConfig
              ((defaultConfig.destinations.lookup "setup").getD rootTmpl)
            ++ basenameNoMd (str "setup-notes.md") ++ mdExt)
          reasons := ["filename match"] } :=
  ⟨by decide, by decide,
    c5_theorem.2.2.1 defaultConfig (str "setup-notes.md") [] "setup"
      (by decide) (by decide)⟩

/-- The content scan can never return the `aiInstructions` category. -/
theorem scanRulesContent_ne_ai (rules : List (String × (Str → Bool)))
    (s : Str) : scanRulesContent rules s ≠ some "aiInstructions" := by
  induction rules with
  | nil => simp [scanRulesContent]
  | cons r rs ih =>
    obtain ⟨cat, m⟩ := r
    by_cases h : (m s && cat != "aiInstructions") = true
    · have hne : cat ≠ "aiInstructions" := by
        have h2 := ((Bool.and_eq_true ..).mp h).2
        simpa [bne_iff_ne] using h2
      simp only [scanRulesContent]
      rw [if_pos h]
      simp [hne]
    · simp only [scanRulesContent, if_neg h]
      exact ih

/-- Claim C6: with no filename-rule match, the classifier depends only on
the first 200 characters of the content (same classification fields for
any two contents agreeing there); the content scan never returns the
`aiInstructions` category; a content match is assigned the configured
content constant (default 0.5) with reasons `["content match"]`; and the
content scan is first-match-wins in rule order, skipping only
`aiInstructions` rules. -/
theorem c6_theorem :
    (∀ cfg (p c c' : Str), c.take 200 = c'.take 200 →
      ((analyzeFileContent cfg p c).map fun a =>
        (a.suggestedCategory, a.confidence, a.reasons, a.suggestedPath))
      = ((analyzeFileContent cfg p c').map fun a =>
        (a.suggestedCategory, a.confidence, a.reasons, a.suggestedPath)))
    ∧ (∀ rules (s : Str),
        scanRulesContent rules s ≠ some "aiInstructions")
    ∧ (∀ cfg (p c : Str) cat, isProtected cfg p = false →
        scanRules cfg.patterns (basenameNoMd p) = none →
        scanRulesContent cfg.patterns (c.take 200) = some cat →
        analyzeFileContent cfg p c =
          some { baseAnalysis p c with
            suggestedCategory := some cat
            confidence := cfg.thresholds.content
            suggestedPath := some (resolveDestination cfg
                ((cfg.destinations.lookup cat).getD rootTmpl)
              ++ basenameNoMd p ++ mdExt)
            reasons := ["content match"] }
        ∧ cat ≠ "aiInstructions")
    ∧ (∀ (pre mid post : List (String × (Str → Bool)))
        (cat₁ cat₂ : String) (m₁ m₂ : Str → Bool) (s : Str),
        (∀ r ∈ pre, r.2 s = false ∨ r.1 = "aiInstructions") →
        m₁ s = true → cat₁ ≠ "aiInstructions" → m₂ s = true →
        cat₂ ≠ "aiInstructions" →
        scanRulesContent (pre ++ (cat₁, m₁) :: mid ++ (cat₂, m₂) :: post) s
          = some cat₁)
    ∧ defaultConfig.thresholds.content = mkRat 1 2 := by
  refine ⟨?_, scanRulesContent_ne_ai, ?_, ?_, rfl⟩
  · intro cfg p c c' h
    by_cases hprot : isProtected cfg p = true
    · simp [analyzeFileContent, hprot]
    · simp only [analyzeFileContent, if_neg hprot]
      cases hscan : scanRules cfg.patterns (basenameNoMd p) with
      | some cat => simp [baseAnalysis, hscan]
      | none =>
        simp only [baseAnalysis, hscan, h]
        cases hsc : scanRulesContent cfg.patterns (c'.take 200) with
        | some cat => simp [baseAnalysis]
        | none => simp [baseAnalysis]
  · intro cfg p c cat hprot hscan hcontent
    refine ⟨?_, ?_⟩
    · simp [analyzeFileContent, hprot, hscan, hcontent, baseAnalysis]
    · intro hcat
      exact scanRulesContent_ne_ai cfg.patterns (c.take 200) (hcat ▸ hcontent)
  · intro pre mid post cat₁ cat₂ m₁ m₂ s hpre h1 hne h2 hne2
    induction pre with
    | nil => simp [scanRulesContent, h1, hne]
    | cons r rs ih =>
      obtain ⟨cat, m⟩ := r
      have hcond : (m s && cat != "aiInstructions") = false := by
        rcases hpre (cat, m) (List.mem_cons_self ..) with hr | hr
        · have hr' : m s = false := hr
          simp [hr']
        · have hr' : cat = "aiInstructions" := hr
          simp [hr']
      simp only [List.cons_append, scanRulesContent, hcond,
        Bool.false_eq_true, if_false]
      exact ih fun r hrm => hpre r (List.mem_cons_of_mem _ hrm)

/-- Witness for C6: `notes.md` matches no filename rule; its content
`architecture overview` matches the `architecture` rule within the first
200 characters, yielding confidence 0.5 and reason `"content match"`. -/
theorem c6_witness :
    isProtected defaultConfig (str "notes.md") = false
    ∧ scanRules defaultConfig.patterns (basenameNoMd (str "notes.md")) = none
    ∧ scanRulesContent defaultConfig.patterns
        ((str "architecture overview").take 200) = some "architecture"
    ∧ (analyzeFileContent defaultConfig (str "notes.md")
          (str "architecture overview") =
        some { baseAnalysis (str "notes.md") (str "architecture overview") with
          suggestedCategory := some "architecture"
          confidence := defaultConfig.thresholds.content
          suggestedPath := some (resolveDestination defaultConfig
              ((defaultConfig.destinations.lookup "architecture").getD rootTmpl)
            ++ basenameNoMd (str "notes.md") ++ mdExt)
          reasons := ["content match"] }
        ∧ "architecture" ≠ "aiInstructions") :=
  ⟨by decide, by decide, by decide,
    c6_theorem.2.2.1 defaultConfig (str "notes.md")
      (str "architecture overview") "architecture"
      (by decide) (by decide) (by decide)⟩

/-- Claim C7: the placement comparison returns true for the
trailing-slash variants `docs` / `docs/` in either order, false for the
segment-different pair `docs` / `doc`, and in general any directory that
does not start with `./`, is nonempty, is not the root marker and does
not already end in a slash compares equal to its own trailing-slash
variant in both orders. -/
theorem c7_theorem :
    dirsMatch (str "docs") (str "docs/") = true
    ∧ dirsMatch (str "docs/") (str "docs") = true
    ∧ dirsMatch (str "docs") (str "doc") = false
    ∧ ∀ d : Str, stripLeadingDotSlash d = d →
        stripLeadingDotSlash (d ++ str "/") = d ++ str "/" →
        d ≠ [] → endsWithSlash d = false → d ≠ str "." →
        dirsMatch d (d ++ str "/") = true
        ∧ dirsMatch (d ++ str "/") d = true := by
  refine ⟨by decide, by decide, by decide, ?_⟩
  intro d h1 h1' h2 h3 h4
  have hsl : str "/" = ['/'] := rfl
  have hdot : str "." = ['.'] := rfl
  have hbeq_nil : (d == ([] : Str)) = false := by
    simp [h2]
  have hbeq_dot : (d == str ".") = false := by
    simp [h4]
  have hslash : endsWithSlash (d ++ str "/") = true := by
    simp [endsWithSlash, hsl]
  have happ_ne_nil : (d ++ str "/" == ([] : Str)) = false := by
    simp [hsl]
  have happ_ne_dot : (d ++ str "/" == str ".") = false := by
    rw [beq_eq_false_iff_ne]
    intro he
    have hlast := congrArg List.getLast? he
    simp [hsl, hdot] at hlast
  have hnd : normalizeDir d = d ++ str "/" := by
    simp only [normalizeDir, h1, hbeq_nil, Bool.false_eq_true, if_false]
    rw [if_pos]
    simp [hbeq_dot, h3, h4]
  have hnds : normalizeDir (d ++ str "/") = d ++ str "/" := by
    simp [normalizeDir, h1', happ_ne_nil, happ_ne_dot, hslash]
  constructor
  · simp [dirsMatch, hnd, hnds, happ_ne_dot]
  · simp [dirsMatch, hnd, hnds, happ_ne_dot]

/-- Witness for C7: the general trailing-slash part applied to `docs`. -/
theorem c7_witness :
    stripLeadingDotSlash (str "docs") = str "docs"
    ∧ endsWithSlash (str "docs") = false
    ∧ dirsMatch (str "docs") (str "docs" ++ str "/") = true :=
  ⟨by decide, by decide,
    (c7_theorem.2.2.2 (str "docs") (by decide) (by decide) (by decide)
      (by decide) (by decide)).1⟩

/-- Project-type adjustment never touches the thresholds. -/
theorem adjust_thresholds (cfg : Config) :
    (adjustForProjectType cfg).thresholds = cfg.thresholds := by
  unfold adjustForProjectType
  repeat' split
  all_goals rfl

/-- Claim C8: with suggest threshold 0.7 and auto-apply threshold 0.8,
every appended suggestion has confidence at least 0.7 and stems from a
not-correctly-placed analysis; the `applyMoves` selection is exactly the
suggestions of confidence at least 0.8; and an analysis of confidence
0.75 that is misplaced passes the suggestion filter while its suggestion
is never selected by `applyMoves`. -/
theorem c8_theorem (cfg : Config)
    (hs : cfg.thresholds.suggest = mkRat 7 10)
    (ha : cfg.thresholds.autoApply = mkRat 4 5) :
    (∀ docs (s : OrganizationSuggestion), s ∈ generateSuggestions cfg docs →
      mkRat 7 10 ≤ s.confidence
      ∧ ∃ doc ∈ docs, ∃ a,
          analyzeFileContent (adjustForProjectType cfg) doc.path doc.content
            = some a
          ∧ isCorrectlyPlaced (adjustForProjectType cfg) a = false
          ∧ s = mkSuggestion a)
    ∧ (∀ (L : List OrganizationSuggestion) (s : OrganizationSuggestion),
        s ∈ autoMoves cfg L ↔ s ∈ L ∧ mkRat 4 5 ≤ s.confidence)
    ∧ (∀ a : FileAnalysis, a.confidence = mkRat 3 4 →
        isCorrectlyPlaced (adjustForProjectType cfg) a = false →
        shouldSuggest (adjustForProjectType cfg) a = true
        ∧ ∀ L : List OrganizationSuggestion,
            mkSuggestion a ∉ autoMoves cfg L) := by
  refine ⟨?_, ?_, ?_⟩
  · intro docs s hmem
    obtain ⟨doc, hdoc, a, hA, hshould, hmk⟩ := mem_generateSuggestions hmem
    have hparts := (Bool.and_eq_true ..).mp hshould
    have hplaced : isCorrectlyPlaced (adjustForProjectType cfg) a = false := by
      have := hparts.1
      simpa using this
    have hconf : (adjustForProjectType cfg).thresholds.suggest ≤ a.confidence :=
      of_decide_eq_true hparts.2
    rw [adjust_thresholds, hs] at hconf
    have hsc : s.confidence = a.confidence := by rw [hmk]; rfl
    exact ⟨hsc ▸ hconf, doc, hdoc, a, hA, hplaced, hmk⟩
  · intro L s
    unfold autoMoves
    rw [List.mem_filter]
    rw [ha]
    simp [decide_eq_true_iff]
  · intro a hconf hplaced
    constructor
    · unfold shouldSuggest
      rw [adjust_thresholds, hs, hplaced, hconf]
      decide
    · intro L hmem
      have h := (List.mem_filter.mp hmem).2
      rw [ha] at h
      have h' : mkRat 4 5 ≤ (mkSuggestion a).confidence :=
        of_decide_eq_true h
      have hac : (mkSuggestion a).confidence = mkRat 3 4 := hconf
      rw [hac] at h'
      exact absurd h' (by decide)

/-- Witness for C8: a concrete misplaced analysis of confidence 0.75
under the default thresholds (0.7 / 0.8) passes the suggestion filter and
its suggestion is excluded from the `applyMoves` selection. -/
theorem c8_witness :
    defaultConfig.thresholds.suggest = mkRat 7 10
    ∧ defaultConfig.thresholds.autoApply = mkRat 4 5
    ∧ shouldSuggest (adjustForProjectType defaultConfig)
        { baseAnalysis (str "notes.md") [] with
          suggestedCategory := some "setup", confidence := mkRat 3 4 } = true
    ∧ mkSuggestion { baseAnalysis (str "notes.md") [] with
          suggestedCategory := some "setup", confidence := mkRat 3 4 }
        ∉ autoMoves defaultConfig
          [mkSuggestion { baseAnalysis (str "notes.md") [] with
            suggestedCategory := some "setup", confidence := mkRat 3 4 }] :=
  ⟨rfl, rfl,
    ((c8_theorem defaultConfig rfl rfl).2.2
      { baseAnalysis (str "notes.md") [] with
        suggestedCategory := some "setup", confidence := mkRat 3 4 }
      rfl (by decide)).1,
    ((c8_theorem defaultConfig rfl rfl).2.2
      { baseAnalysis (str "notes.md") [] with
        suggestedCategory := some "setup", confidence := mkRat 3 4 }
      rfl (by decide)).2
      [mkSuggestion { baseAnalysis (str "notes.md") [] with
        suggestedCategory := some "setup", confidence := mkRat 3 4 }]⟩

/-- Claim C9: when the external AI classification call fails or returns
nothing (modelled by `none`, which is what `classify` returns in both
cases), the AI-enhanced analysis of a document equals the pre-AI pattern
analysis — same category, confidence and reasons — and a batch run whose
external calls all fail equals the plain pattern-only batch run. -/
theorem c9_theorem :
    (∀ (cfg : Config) (aiAvailable : Bool) (p c : Str),
      analyzeFileContentWithAI cfg aiAvailable none p c
        = analyzeFileContent cfg p c)
    ∧ ∀ (cfg : Config) (aiAvailable : Bool) (docs : List Document),
      generateSuggestionsWithAI cfg aiAvailable (fun _ => none) docs
        = generateSuggestions cfg docs := by
  have h1 : ∀ (cfg : Config) (avail : Bool) (p c : Str),
      analyzeFileContentWithAI cfg avail none p c
        = analyzeFileContent cfg p c := by
    intro cfg avail p c
    unfold analyzeFileContentWithAI
    cases h : analyzeFileContent cfg p c with
    | none => rfl
    | some a =>
      simp only []
      split <;> rfl
  refine ⟨h1, ?_⟩
  intro cfg avail docs
  simp only [generateSuggestionsWithAI, generateSuggestions]
  refine congrArg (fun f => docs.filterMap f) (funext fun doc => ?_)
  by_cases he : (adjustForProjectType cfg).ai.enabled = true
  · rw [if_pos he, h1]
  · rw [if_neg he]

/-- Claim C10: configuration merging appends the user protected files
after the built-in defaults, so for every user configuration all five
built-in protected files remain in the merged protected set — a user
configuration can never remove or replace them. -/
theorem c10_theorem (u : UserConfig) :
    (mergeWithDefaults u).protectedFiles
      = defaultConfig.protectedFiles ++ u.protectedFiles
    ∧ str "README.md" ∈ (mergeWithDefaults u).protectedFiles
    ∧ str "CHANGELOG.md" ∈ (mergeWithDefaults u).protectedFiles
    ∧ str "LICENSE.md" ∈ (mergeWithDefaults u).protectedFiles
    ∧ str "CONTRIBUTING.md" ∈ (mergeWithDefaults u).protectedFiles
    ∧ str "CODE_OF_CONDUCT.md" ∈ (mergeWithDefaults u).protectedFiles := by
  have hpf : (mergeWithDefaults u).protectedFiles
      = defaultConfig.protectedFiles ++ u.protectedFiles := rfl
  refine ⟨hpf, ?_, ?_, ?_, ?_, ?_⟩ <;>
    (rw [hpf]; exact List.mem_append_left _ (by decide))

end DocOrganizer
